import Mathlib

/-!
Verification development for the telecom pipeline analyzer
(`abstractions.py`): dominant-latency analysis over a component
dependency forest, a four-phase quorum agreement simulator, a
contention/invariant model, a latency-elasticity optimizer and a
memory-bounded throughput optimizer.

Modelling conventions:
* Python floats are modelled as exact rationals; formulas that use
  real exponentiation (`contention ** beta`) live in the reals, with
  the rational inputs coerced.
* The agreement simulator's Python dicts hold references to mutable
  record dicts, so the state is modelled as a heap (`store`, a list of
  records addressed by index) together with association lists mapping
  request ids to record addresses.  `accepted[request_id] = proposal`
  in the source stores the same reference that `proposals` holds,
  which the heap model reflects by sharing the address.
* Line 110 of the source (`aif timestamp is fresh`, inside `promise`)
  is not valid Python; it is read here as the comment
  `# if timestamp is fresh` that it plainly was meant to be, and the
  rest of `promise` is translated as written.
-/

inductive FaultType where
  | RETRY | DRIFT | BACKPRESSURE | NODE_PARTITION
  | LIVELOCK | CRASH | TIMEOUT | REPLAY
deriving DecidableEq

/-- A telecom system component (`Component` dataclass in the source). -/
structure Component where
  name : String
  cpu_percent : ℚ
  memory_gb : ℚ
  latency_ms : ℚ
  throughput_mbps : ℚ
  reliability_percent : ℚ
  requests_per_sec : ℤ
  dependency : Option String
  fault_events : List FaultType
deriving DecidableEq

/-! ## Agreement simulator (`ConsensusRPCScheme`) -/

/-- One proposal dict `{timestamp, data, promises, accepts}`. -/
structure ProposalRecord where
  timestamp : Nat
  data : String
  promises : Nat
  accepts : Nat
deriving DecidableEq

/-- Heap-model state of `ConsensusRPCScheme`: `store` is the heap of
record dicts, `proposals` and `accepted` map request ids to heap
addresses (a Python dict entry holds a reference to the record). -/
structure ConsensusRPCScheme where
  dominant_component : String
  quorum_size : Nat
  store : List ProposalRecord
  proposals : List (String × Nat)
  accepted : List (String × Nat)
  current_timestamp : Nat
deriving DecidableEq

/-- Python-dict lookup on an association list; the most recent binding
for a key shadows older ones (insertion is `cons`). -/
def dict_get (k : String) : List (String × Nat) → Option Nat
  | [] => none
  | (k2, v) :: rest => if k = k2 then some v else dict_get k rest

/-- `ConsensusRPCScheme.__init__`. -/
def initScheme (dominant_component : String) (quorum_size : Nat) : ConsensusRPCScheme :=
  { dominant_component := dominant_component
    quorum_size := quorum_size
    store := []
    proposals := []
    accepted := []
    current_timestamp := 0 }

/-- Phase 1 `prepare`: bump the global timestamp, allocate a fresh
proposal record and (re)bind `request_id` to it.  Always returns true. -/
def prepare (s : ConsensusRPCScheme) (request_id : String) (data : String) :
    Bool × ConsensusRPCScheme :=
  let ts := s.current_timestamp + 1
  (true,
    { s with
      current_timestamp := ts
      store := s.store ++ [⟨ts, data, 0, 0⟩]
      proposals := (request_id, s.store.length) :: s.proposals })

/-- Phase 2 `promise`: false for an unknown id; otherwise grant (and
bump the promise count in place) exactly when the proposal's timestamp
is strictly greater than `last_timestamp`.  `node_id` is unused. -/
def promise (s : ConsensusRPCScheme) (request_id : String)
    (_node_id : String) (last_timestamp : Nat) : Bool × ConsensusRPCScheme :=
  match dict_get request_id s.proposals with
  | none => (false, s)
  | some r =>
    match s.store[r]? with
    | none => (false, s)
    | some rec =>
      if last_timestamp < rec.timestamp then
        (true, { s with store := s.store.set r { rec with promises := rec.promises + 1 } })
      else (false, s)

/-- Phase 3 `accept`: false for an unknown id; if the promise count has
reached the quorum size, set the accept count to the promise count and
bind the id in `accepted` to the same record reference. -/
def accept (s : ConsensusRPCScheme) (request_id : String) :
    Bool × ConsensusRPCScheme :=
  match dict_get request_id s.proposals with
  | none => (false, s)
  | some r =>
    match s.store[r]? with
    | none => (false, s)
    | some rec =>
      if s.quorum_size ≤ rec.promises then
        (true,
          { s with
            store := s.store.set r { rec with accepts := rec.promises }
            accepted := (request_id, r) :: s.accepted })
      else (false, s)

/-- Phase 4 `learn`: return the record referenced by the `accepted`
entry (the source returns `self.accepted.get(request_id)`, the whole
record dict, not its `data` field). -/
def learn (s : ConsensusRPCScheme) (request_id : String) : Option ProposalRecord :=
  (dict_get request_id s.accepted).bind (fun r => s.store[r]?)

/-- One client call to the simulator, for reasoning about call traces. -/
inductive Op where
  | prepare (request_id data : String)
  | promise (request_id node_id : String) (last_timestamp : Nat)
  | accept (request_id : String)
deriving DecidableEq

/-- Execute one call, keeping its boolean result. -/
def stepB (s : ConsensusRPCScheme) : Op → Bool × ConsensusRPCScheme
  | Op.prepare id d => prepare s id d
  | Op.promise id n last => promise s id n last
  | Op.accept id => accept s id

/-- Execute one call, dropping its boolean result. -/
def step (s : ConsensusRPCScheme) (op : Op) : ConsensusRPCScheme :=
  (stepB s op).2

/-- Execute a trace of calls in order. -/
def run (s : ConsensusRPCScheme) (ops : List Op) : ConsensusRPCScheme :=
  ops.foldl step s

/-- Whether `op`, executed in state `s`, is a successful `accept` for
the given request id. -/
def accept_hit (s : ConsensusRPCScheme) (op : Op) (id : String) : Bool :=
  match op with
  | Op.accept j => if j = id then (stepB s op).1 else false
  | _ => false

/-- Whether some `accept` call for `id` in the trace succeeds. -/
def accept_succeeded (s : ConsensusRPCScheme) : List Op → String → Bool
  | [], _ => false
  | op :: ops, id => accept_hit s op id || accept_succeeded (step s op) ops id

/-! ## Contention & invariant model (`ContentionModel`) -/

structure ContentionModel where
  component : Component
  quorum_size : Nat
  invariants_valid : Bool

/-- `ContentionModel.__init__` (the cached flag starts out true). -/
def mkContentionModel (component : Component) (quorum_size : Nat) : ContentionModel :=
  ⟨component, quorum_size, true⟩

/-- `calculate_contention`: `(requests_per_sec * latency_ms) / (1000 * quorum_size)`. -/
def calculate_contention (m : ContentionModel) : ℚ :=
  ((m.component.requests_per_sec : ℚ) * m.component.latency_ms) /
    (1000 * (m.quorum_size : ℚ))

/-- `check_invariants`: feasibility needs the dominance flag, component
reliability at least 94.7 and quorum availability at least 2/3; the
result is also cached in `invariants_valid`. -/
def check_invariants (m : ContentionModel) (is_latency_dominant : Bool)
    (quorum_available : ℚ) : Bool × ContentionModel :=
  let i1 := is_latency_dominant
  let i2 := decide ((947 / 10 : ℚ) ≤ m.component.reliability_percent)
  let i3 := decide ((2 / 3 : ℚ) ≤ quorum_available)
  let v := i1 && i2 && i3
  (v, { m with invariants_valid := v })

/-- `is_feasible`: the last cached invariant result. -/
def is_feasible (m : ContentionModel) : Bool :=
  m.invariants_valid

/-! ## Elasticity optimizer (`LatencyElasticityOptimizer`) -/

structure LatencyElasticityOptimizer where
  base_latency : ℚ
  alpha : ℚ
  beta : ℚ

/-- `effective_latency`: `L_base * (1 + alpha * contention ** beta)`. -/
noncomputable def effective_latency (o : LatencyElasticityOptimizer) (contention : ℚ) : ℝ :=
  (o.base_latency : ℝ) * (1 + (o.alpha : ℝ) * ((contention : ℝ) ^ (o.beta : ℝ)))

/-- `optimal_contention`: `0` when `beta <= 1`, otherwise the
closed-form stationary point `(beta / (alpha * (beta - 1))) ** (1 / beta)`. -/
noncomputable def optimal_contention (o : LatencyElasticityOptimizer) : ℝ :=
  if o.beta ≤ 1 then 0
  else ((o.beta : ℝ) / ((o.alpha : ℝ) * ((o.beta : ℝ) - 1))) ^ ((1 : ℝ) / (o.beta : ℝ))

/-! ## Throughput optimizer (`ThroughputOptimizer`) -/

structure ThroughputOptimizer where
  component : Component
  request_size_gb : ℚ
  divergence_limit : ℚ

/-- The elasticity optimizer built in `ThroughputOptimizer.__init__`:
`LatencyElasticityOptimizer(component.latency_ms)` with the default
`alpha = 0.2` and `beta = 1.5`. -/
def elasticity_optimizer (t : ThroughputOptimizer) : LatencyElasticityOptimizer :=
  ⟨t.component.latency_ms, 1 / 5, 3 / 2⟩

/-- `memory_divergence`: base memory plus
`(request_size_gb * contention * effective_latency(contention)) / 1000`. -/
noncomputable def memory_divergence (t : ThroughputOptimizer) (contention : ℚ) : ℝ :=
  (t.component.memory_gb : ℝ) +
    ((t.request_size_gb : ℝ) * (contention : ℝ) *
      effective_latency (elasticity_optimizer t) contention) / 1000

/-- `max_memory_allowed`: `memory_gb * (1 + divergence_limit)`. -/
def max_memory_allowed (t : ThroughputOptimizer) : ℚ :=
  t.component.memory_gb * (1 + t.divergence_limit)

/-- The grid `[i * 0.1 for i in range(1, 100)]`, i.e. `0.1, 0.2, …, 9.9`. -/
def contention_grid : List ℚ :=
  (List.range 99).map (fun (i : ℕ) => ((i : ℚ) + 1) / 10)

/-- One iteration of the search loop in `optimize_throughput`: keep the
sample if it satisfies the memory ceiling and strictly beats the best
throughput so far. -/
noncomputable def optStep (t : ThroughputOptimizer) (b : ℚ × ℝ) (c : ℚ) : ℚ × ℝ :=
  let mem := memory_divergence t c
  if mem ≤ ((max_memory_allowed t : ℚ) : ℝ) then
    let th := (t.component.throughput_mbps : ℝ) * (((max_memory_allowed t : ℚ) : ℝ) / mem)
    if b.2 < th then (c, th) else b
  else b

/-- The dict returned by `optimize_throughput`. -/
structure OptimizationResult where
  optimal_contention : ℚ
  optimized_throughput : ℝ
  current_throughput : ℚ
  improvement_percent : ℝ
  memory_used : ℝ
  memory_max : ℚ

/-- `optimize_throughput`: brute-force grid search starting from
`best_contention = 0`, `best_throughput = 0`. -/
noncomputable def optimize_throughput (t : ThroughputOptimizer) : OptimizationResult :=
  let best := contention_grid.foldl (optStep t) (0, 0)
  { optimal_contention := best.1
    optimized_throughput := best.2
    current_throughput := t.component.throughput_mbps
    improvement_percent :=
      (best.2 - (t.component.throughput_mbps : ℝ)) / (t.component.throughput_mbps : ℝ) * 100
    memory_used := memory_divergence t best.1
    memory_max := max_memory_allowed t }

/-! ## Dominance analyzer (`DominantLatencyAnalyzer`) -/

/-- The children of `name` in the derived dependency chain: the
components (in registry order) that declare `name` as their dependency. -/
def childrenOf (reg : List Component) (name : String) : List String :=
  (reg.filter (fun c => c.dependency = some name)).map (fun c => c.name)

/-- Registry lookup, `self.components[name]`. -/
def lookupComponent (reg : List Component) (name : String) : Option Component :=
  reg.find? (fun c => c.name = name)

/-- `calculate_downstream_throughput`: own throughput plus the
recursive sum over the children.  The recursion of the source is total
only on acyclic registries; the embedding uses fuel (`reg.length` at
call sites), which the forest invariant keeps from running out. -/
def calculate_downstream_throughput (reg : List Component) : Nat → String → ℚ
  | 0, _ => 0
  | fuel + 1, name =>
    match lookupComponent reg name with
    | none => 0
    | some c =>
      (childrenOf reg name).foldl
        (fun total dep => total + calculate_downstream_throughput reg fuel dep)
        c.throughput_mbps

/-- `calculate_cumulative_latency`: own latency plus the latency along
the dependency path to the root (fuel as above). -/
def calculate_cumulative_latency (reg : List Component) : Nat → String → ℚ
  | 0, _ => 0
  | fuel + 1, name =>
    match lookupComponent reg name with
    | none => 0
    | some c =>
      match c.dependency with
      | none => c.latency_ms
      | some d => c.latency_ms + calculate_cumulative_latency reg fuel d

/-- The per-component metrics dict built by `identify_dominant_source`.
The dominance key lives in `WithTop ℚ`, whose top element models the
`float('inf')` sentinel (it compares strictly above every finite value,
and ties with itself, exactly as the IEEE infinity does in the source's
`max`). -/
structure MetricsRecord where
  latency : ℚ
  cumulative_latency : ℚ
  downstream_throughput : ℚ
  latency_over_throughput : WithTop ℚ
deriving DecidableEq

/-- Metrics for one component: the source computes
`ratio = latency / downstream_throughput if downstream_throughput > 0
else float('inf')`. -/
def metricsFor (reg : List Component) (c : Component) : MetricsRecord :=
  let dt := calculate_downstream_throughput reg reg.length c.name
  { latency := c.latency_ms
    cumulative_latency := calculate_cumulative_latency reg reg.length c.name
    downstream_throughput := dt
    latency_over_throughput :=
      if 0 < dt then ((c.latency_ms / dt : ℚ) : WithTop ℚ) else ⊤ }

/-- `identify_dominant_source`: build the metrics map in registry order
and return the name of the first component attaining the maximal
dominance key (Python's `max` keeps the first maximum), together with
the metrics. -/
def identify_dominant_source (reg : List Component) :
    Option (String × List (String × MetricsRecord)) :=
  let metrics := reg.map (fun c => (c.name, metricsFor reg c))
  match metrics with
  | [] => none
  | m :: ms =>
    some ((ms.foldl
      (fun best x =>
        if best.2.latency_over_throughput < x.2.latency_over_throughput then x else best)
      m).1, metrics)

/-- Modelled from the spec: the dominance key as the claim words it,
with the infinite sentinel only when the downstream throughput is
exactly zero. -/
def spec_dominance_key (reg : List Component) (c : Component) : WithTop ℚ :=
  let dt := calculate_downstream_throughput reg reg.length c.name
  if dt = 0 then ⊤ else ((c.latency_ms / dt : ℚ) : WithTop ℚ)

/-- Modelled from the spec: the dominant component as the claim words
it — the first component (in registry order) attaining the maximal
spec dominance key. -/
def spec_dominant_source (reg : List Component) : Option String :=
  match reg with
  | [] => none
  | c :: cs =>
    some ((cs.foldl
      (fun best x =>
        if spec_dominance_key reg best < spec_dominance_key reg x then x else best)
      c).name)

/-! ## Concrete instances used by counterexamples and witnesses -/

/-- A root component with a negative throughput (Python floats admit
negative values; nothing in the constructor rejects them). -/
def comp_inf : Component := ⟨"A", 0, 0, 1, -1, 0, 0, none, []⟩

/-- A root component with finite positive dominance key. -/
def comp_fin : Component := ⟨"B", 0, 0, 5, 1, 0, 0, none, []⟩

/-- Two-root registry on which the source's `dt > 0` guard and the
claim's `dt == 0` guard pick different dominant components. -/
def reg_cex1 : List Component := [comp_inf, comp_fin]

/-- A root with throughput 10. -/
def comp_root : Component := ⟨"Root", 1, 1, 1, 10, 99, 1, none, []⟩

/-- A child of `Root` with throughput `-5`. -/
def comp_child_neg : Component := ⟨"Leaf", 1, 1, 1, -5, 99, 1, some "Root", []⟩

/-- Acyclic two-component forest where a negative-throughput child
drags the root's downstream throughput below its own. -/
def reg_cex9 : List Component := [comp_root, comp_child_neg]

/-- A child of `Root` with throughput 5. -/
def comp_child_pos : Component := ⟨"Leaf", 1, 1, 1, 5, 99, 1, some "Root", []⟩

/-- A well-behaved (nonnegative-throughput) registry. -/
def reg_pos : List Component := [comp_root, comp_child_pos]

/-- A trace that prepares, gathers two promises and accepts. -/
def trace_two : List Op :=
  [Op.prepare "r" "d", Op.promise "r" "n1" 0, Op.promise "r" "n2" 0, Op.accept "r"]

/-- Same payload, but three promises before the accept. -/
def trace_three : List Op :=
  [Op.prepare "r" "d", Op.promise "r" "n1" 0, Op.promise "r" "n2" 0,
   Op.promise "r" "n3" 0, Op.accept "r"]

/-- A component whose reliability is exactly the 94.7 threshold. -/
def comp_boundary : Component := ⟨"W", 52, 37 / 10, 38, 690, 947 / 10, 215, none, []⟩

/-- A component with all positive resource metrics. -/
def comp_auth : Component := ⟨"AuthCore", 47, 12 / 5, 21, 520, 488 / 5, 165, none, []⟩

/-- Reference validity: every address held by the request-id maps
points into the store.  Holds in the initial state and is preserved by
every call. -/
def WFState (s : ConsensusRPCScheme) : Prop :=
  (∀ id r, dict_get id s.proposals = some r → r < s.store.length) ∧
  (∀ id r, dict_get id s.accepted = some r → r < s.store.length)

/-! ## General lemmas -/

/-- The source's `max(items, key=...)` loop (keep the incumbent unless
the challenger's key is strictly greater) returns the first element
attaining the maximal key. -/
theorem foldl_max_first {α K : Type} [LinearOrder K] (key : α → K) :
    ∀ (l : List α) (a : α),
      ∃ pre m post,
        a :: l = pre ++ m :: post ∧
        l.foldl (fun best x => if key best < key x then x else best) a = m ∧
        (∀ x ∈ a :: l, key x ≤ key m) ∧
        (∀ x ∈ pre, key x < key m) := by
  intro l
  induction l with
  | nil =>
    intro a
    exact ⟨[], a, [], rfl, rfl, by simp, by simp⟩
  | cons b t ih =>
    intro a
    by_cases h : key a < key b
    · obtain ⟨pre, m, post, hdecomp, hfold, hmax, hpre⟩ := ih b
      refine ⟨a :: pre, m, post, by simp [hdecomp], ?_, ?_, ?_⟩
      · simpa [h] using hfold
      · intro x hx
        rcases List.mem_cons.mp hx with rfl | hx
        · exact le_of_lt (lt_of_lt_of_le h (hmax b (by simp)))
        · exact hmax x hx
      · intro x hx
        rcases List.mem_cons.mp hx with rfl | hx
        · exact lt_of_lt_of_le h (hmax b (by simp))
        · exact hpre x hx
    · obtain ⟨pre, m, post, hdecomp, hfold, hmax, hpre⟩ := ih a
      rcases pre with _ | ⟨p, pre2⟩
      · simp only [List.nil_append] at hdecomp
        obtain ⟨rfl, rfl⟩ : a = m ∧ t = post := by
          injection hdecomp with h1 h2
          exact ⟨h1, h2⟩
        refine ⟨[], a, b :: t, rfl, ?_, ?_, by simp⟩
        · simpa [h] using hfold
        · intro x hx
          rcases List.mem_cons.mp hx with rfl | hx
          · exact le_refl _
          · rcases List.mem_cons.mp hx with rfl | hx
            · exact not_lt.mp h
            · exact hmax x (List.mem_cons_of_mem a hx)
      · have hp : a = p ∧ t = pre2 ++ m :: post := by
          rw [List.cons_append] at hdecomp
          injection hdecomp with h1 h2
          exact ⟨h1, h2⟩
        obtain ⟨rfl, ht⟩ := hp
        have hma : key a < key m := hpre a (by simp)
        refine ⟨a :: b :: pre2, m, post, by simp [ht], ?_, ?_, ?_⟩
        · simpa [h] using hfold
        · intro x hx
          rcases List.mem_cons.mp hx with rfl | hx
          · exact le_of_lt hma
          · rcases List.mem_cons.mp hx with rfl | hx
            · exact le_trans (not_lt.mp h) (le_of_lt hma)
            · exact hmax x (List.mem_cons_of_mem a hx)
        · intro x hx
          rcases List.mem_cons.mp hx with rfl | hx
          · exact hma
          · rcases List.mem_cons.mp hx with rfl | hx
            · exact lt_of_le_of_lt (not_lt.mp h) hma
            · exact hpre x (List.mem_cons_of_mem a hx)

/-- Folding `total + f d` over a list of nonnegative contributions
never decreases the accumulator. -/
theorem le_foldl_add (f : String → ℚ) :
    ∀ (l : List String) (t : ℚ), (∀ d ∈ l, 0 ≤ f d) →
      t ≤ l.foldl (fun total d => total + f d) t := by
  intro l
  induction l with
  | nil => intro t _; exact le_refl t
  | cons d rest ih =>
    intro t h
    calc t ≤ t + f d := le_add_of_nonneg_right (h d (by simp))
    _ ≤ rest.foldl (fun total x => total + f x) (t + f d) :=
        ih (t + f d) (fun x hx => h x (List.mem_cons_of_mem d hx))

/-- With nonnegative throughputs, every downstream-throughput value is
nonnegative, at any fuel. -/
theorem downstream_nonneg (reg : List Component)
    (hth : ∀ x ∈ reg, 0 ≤ x.throughput_mbps) :
    ∀ (fuel : Nat) (name : String),
      0 ≤ calculate_downstream_throughput reg fuel name := by
  intro fuel
  induction fuel with
  | zero => intro name; simp [calculate_downstream_throughput]
  | succ n ih =>
    intro name
    unfold calculate_downstream_throughput
    cases h : lookupComponent reg name with
    | none => exact le_refl 0
    | some c =>
      have hc : c ∈ reg := List.mem_of_find?_eq_some h
      exact le_trans (hth c hc) (le_foldl_add _ _ _ (fun d _ => ih d))

/-- In a registry with pairwise-distinct names, looking up a member's
name finds that member. -/
theorem lookup_name_of_nodup :
    ∀ (reg : List Component) (c : Component), c ∈ reg →
      (reg.map (fun x => x.name)).Nodup →
      lookupComponent reg c.name = some c := by
  intro reg
  induction reg with
  | nil => intro c hc; cases hc
  | cons h t ih =>
    intro c hc hnd
    rcases List.mem_cons.mp hc with rfl | hct
    · simp [lookupComponent, List.find?]
    · have hname : c.name ≠ h.name := by
        intro he
        have : h.name ∈ t.map (fun x => x.name) := by
          exact he ▸ List.mem_map_of_mem (fun x => x.name) hct
        simp [List.nodup_cons] at hnd
        exact hnd.1 c hct he
      have hnd2 : (t.map (fun x => x.name)).Nodup := (List.nodup_cons.mp hnd).2
      simpa [lookupComponent, List.find?, hname, Ne.symm hname] using ih c hct hnd2

/-! ## Claim C1 -/

/-- Claim C1, counterexample: on `reg_cex1` the source maps every
non-positive downstream throughput (here `-1`) to the infinite
sentinel, so it names `A` dominant, while the claim's ratio
(`latency / downstream_throughput`, infinite only at exactly zero)
would give `A` the key `-1` and name `B` dominant.  The claim as
stated is therefore false on this registry. -/
theorem identify_dominant_source_cex :
    (identify_dominant_source reg_cex1).map Prod.fst = some "A" ∧
    spec_dominant_source reg_cex1 = some "B" ∧
    (identify_dominant_source reg_cex1).map Prod.fst ≠ spec_dominant_source reg_cex1 := by
  have h1 : (identify_dominant_source reg_cex1).map Prod.fst = some "A" := by decide
  have h2 : spec_dominant_source reg_cex1 = some "B" := by
    have e1 : spec_dominance_key reg_cex1 comp_inf = ((1 / -1 : ℚ) : WithTop ℚ) := rfl
    have e2 : spec_dominance_key reg_cex1 comp_fin = ((5 / 1 : ℚ) : WithTop ℚ) := rfl
    have hlt : spec_dominance_key reg_cex1 comp_inf < spec_dominance_key reg_cex1 comp_fin := by
      rw [e1, e2]
      exact WithTop.coe_lt_coe.mpr (by norm_num)
    rw [show spec_dominant_source reg_cex1 =
          some ((if spec_dominance_key reg_cex1 comp_inf < spec_dominance_key reg_cex1 comp_fin
            then comp_fin else comp_inf).name) from rfl, if_pos hlt]
    rfl
  exact ⟨h1, h2, by rw [h1, h2]; simp⟩

/-- Claim C1 (amended): for every nonempty registry with distinct
component names, `identify_dominant_source` returns the full metrics
map together with the name of the first component (in registry order)
attaining the maximal dominance key, where the key is
`latency / downstream_throughput` if the downstream throughput is
strictly positive and the infinite sentinel otherwise (in particular
when it is exactly zero); the maximum is strict over everything
earlier in the registry (first-maximum tie-break). -/
theorem identify_dominant_first_max (reg : List Component)
    (hne : reg ≠ []) (_hnodup : (reg.map (fun c => c.name)).Nodup) :
    ∃ pre m post,
      reg.map (fun c => (c.name, metricsFor reg c)) = pre ++ m :: post ∧
      identify_dominant_source reg =
        some (m.1, reg.map (fun c => (c.name, metricsFor reg c))) ∧
      (∀ x ∈ reg.map (fun c => (c.name, metricsFor reg c)),
        x.2.latency_over_throughput ≤ m.2.latency_over_throughput) ∧
      (∀ x ∈ pre, x.2.latency_over_throughput < m.2.latency_over_throughput) := by
  cases hreg : reg.map (fun c => (c.name, metricsFor reg c)) with
  | nil =>
    cases reg with
    | nil => exact absurd rfl hne
    | cons a l => simp at hreg
  | cons m0 ms =>
    obtain ⟨pre, m, post, hdec, hfold, hmax, hpre⟩ :=
      foldl_max_first (fun x : String × MetricsRecord => x.2.latency_over_throughput) ms m0
    refine ⟨pre, m, post, hdec, ?_, ?_, hpre⟩
    · simp only [identify_dominant_source, hreg, hfold]
    · intro x hx
      exact hmax x hx

/-- Claim C1 amended, witness at the two-component registry `reg_pos`. -/
theorem identify_dominant_first_max_witness :
    ∃ pre m post,
      reg_pos.map (fun c => (c.name, metricsFor reg_pos c)) = pre ++ m :: post ∧
      identify_dominant_source reg_pos =
        some (m.1, reg_pos.map (fun c => (c.name, metricsFor reg_pos c))) ∧
      (∀ x ∈ reg_pos.map (fun c => (c.name, metricsFor reg_pos c)),
        x.2.latency_over_throughput ≤ m.2.latency_over_throughput) ∧
      (∀ x ∈ pre, x.2.latency_over_throughput < m.2.latency_over_throughput) :=
  identify_dominant_first_max reg_pos (by simp [reg_pos]) (by decide)

/-! ## Claim C9 -/

/-- Claim C9, counterexample: in the acyclic forest `reg_cex9` the
child's throughput is `-5`, so the root's downstream throughput `5` is
strictly below its own throughput `10` — descendants can subtract when
throughputs are negative, so the unrestricted claim fails. -/
theorem downstream_negative_cex :
    calculate_downstream_throughput reg_cex9 reg_cex9.length comp_root.name = 5 ∧
    ¬ (comp_root.throughput_mbps ≤
        calculate_downstream_throughput reg_cex9 reg_cex9.length comp_root.name) := by
  have h : calculate_downstream_throughput reg_cex9 reg_cex9.length comp_root.name = 5 := by
    simp [reg_cex9, calculate_downstream_throughput, lookupComponent, childrenOf,
      comp_root, comp_child_neg, List.find?, List.filter]
    norm_num
  exact ⟨h, by rw [h]; simp [comp_root]; norm_num⟩

/-- Claim C9 (amended): in a registry with distinct names all of whose
throughputs are nonnegative, every component's downstream throughput
is at least its own throughput (descendants only add). -/
theorem downstream_ge_own (reg : List Component) (c : Component)
    (hc : c ∈ reg) (hnd : (reg.map (fun x => x.name)).Nodup)
    (hth : ∀ x ∈ reg, 0 ≤ x.throughput_mbps) :
    c.throughput_mbps ≤ calculate_downstream_throughput reg reg.length c.name := by
  obtain ⟨n, hn⟩ : ∃ n, reg.length = n + 1 := by
    cases reg with
    | nil => cases hc
    | cons a l => exact ⟨l.length, rfl⟩
  rw [hn]
  unfold calculate_downstream_throughput
  rw [lookup_name_of_nodup reg c hc hnd]
  exact le_foldl_add _ _ _ (fun d _ => downstream_nonneg reg hth n d)

/-- Claim C9 amended, witness at the registry `reg_pos` and its root. -/
theorem downstream_ge_own_witness :
    comp_root.throughput_mbps ≤
      calculate_downstream_throughput reg_pos reg_pos.length comp_root.name :=
  downstream_ge_own reg_pos comp_root (by decide) (by decide) (by decide)

/-! ## Step characterizations for the agreement simulator -/

/-- `prepare` appends a fresh record and rebinds the id. -/
theorem prepare_step_eq (s : ConsensusRPCScheme) (id d : String) :
    step s (Op.prepare id d) =
      { s with
        current_timestamp := s.current_timestamp + 1
        store := s.store ++ [⟨s.current_timestamp + 1, d, 0, 0⟩]
        proposals := (id, s.store.length) :: s.proposals } := rfl

/-- `promise` on an unknown id fails without touching the state. -/
theorem promise_eq_none (s : ConsensusRPCScheme) (id n : String) (last : Nat)
    (h : dict_get id s.proposals = none) :
    promise s id n last = (false, s) := by
  unfold promise
  rw [h]

/-- `promise` on a dangling reference (never reachable) fails. -/
theorem promise_eq_dangling (s : ConsensusRPCScheme) (id n : String) (last r : Nat)
    (h1 : dict_get id s.proposals = some r) (h2 : s.store[r]? = none) :
    promise s id n last = (false, s) := by
  unfold promise
  rw [h1]
  simp only [h2]

/-- `promise` on a live reference: grant and bump in place exactly when
the stored timestamp is strictly newer. -/
theorem promise_eq_some (s : ConsensusRPCScheme) (id n : String) (last r : Nat)
    (rec : ProposalRecord)
    (h1 : dict_get id s.proposals = some r) (h2 : s.store[r]? = some rec) :
    promise s id n last =
      if last < rec.timestamp then
        (true, { s with store := s.store.set r { rec with promises := rec.promises + 1 } })
      else (false, s) := by
  unfold promise
  rw [h1]
  simp only [h2]

/-- `accept` on an unknown id fails without touching the state. -/
theorem accept_eq_none (s : ConsensusRPCScheme) (id : String)
    (h : dict_get id s.proposals = none) :
    accept s id = (false, s) := by
  unfold accept
  rw [h]

/-- `accept` on a dangling reference (never reachable) fails. -/
theorem accept_eq_dangling (s : ConsensusRPCScheme) (id : String) (r : Nat)
    (h1 : dict_get id s.proposals = some r) (h2 : s.store[r]? = none) :
    accept s id = (false, s) := by
  unfold accept
  rw [h1]
  simp only [h2]

/-- `accept` on a live reference: succeed, set the accept count in
place and alias the id in `accepted`, exactly when quorum is reached. -/
theorem accept_eq_some (s : ConsensusRPCScheme) (id : String) (r : Nat)
    (rec : ProposalRecord)
    (h1 : dict_get id s.proposals = some r) (h2 : s.store[r]? = some rec) :
    accept s id =
      if s.quorum_size ≤ rec.promises then
        (true,
          { s with
            store := s.store.set r { rec with accepts := rec.promises }
            accepted := (id, r) :: s.accepted })
      else (false, s) := by
  unfold accept
  rw [h1]
  simp only [h2]

/-- A `promise` call either leaves the state unchanged or bumps the
promise count of the referenced record in place. -/
theorem promise_step_cases (s : ConsensusRPCScheme) (id n : String) (last : Nat) :
    step s (Op.promise id n last) = s ∨
    ∃ r2 rec, dict_get id s.proposals = some r2 ∧ s.store[r2]? = some rec ∧
      step s (Op.promise id n last) =
        { s with store := s.store.set r2 { rec with promises := rec.promises + 1 } } := by
  show (promise s id n last).2 = s ∨ _
  cases hg : dict_get id s.proposals with
  | none => exact Or.inl (by rw [promise_eq_none s id n last hg])
  | some r2 =>
    cases hs : s.store[r2]? with
    | none => exact Or.inl (by rw [promise_eq_dangling s id n last r2 hg hs])
    | some rec =>
      by_cases ht : last < rec.timestamp
      · refine Or.inr ⟨r2, rec, rfl, hs, ?_⟩
        show (promise s id n last).2 = _
        rw [promise_eq_some s id n last r2 rec hg hs, if_pos ht]
      · refine Or.inl ?_
        show (promise s id n last).2 = s
        rw [promise_eq_some s id n last r2 rec hg hs, if_neg ht]

/-- An `accept` call either fails leaving the state unchanged, or sets
the accept count in place and binds the id in `accepted` to the same
record address. -/
theorem accept_step_cases (s : ConsensusRPCScheme) (id : String) :
    (step s (Op.accept id) = s ∧ (stepB s (Op.accept id)).1 = false) ∨
    ∃ r2 rec, dict_get id s.proposals = some r2 ∧ s.store[r2]? = some rec ∧
      s.quorum_size ≤ rec.promises ∧
      (stepB s (Op.accept id)).1 = true ∧
      step s (Op.accept id) =
        { s with
          store := s.store.set r2 { rec with accepts := rec.promises }
          accepted := (id, r2) :: s.accepted } := by
  show ((accept s id).2 = s ∧ (accept s id).1 = false) ∨ _
  cases hg : dict_get id s.proposals with
  | none =>
    rw [accept_eq_none s id hg]
    exact Or.inl ⟨rfl, rfl⟩
  | some r2 =>
    cases hs : s.store[r2]? with
    | none =>
      rw [accept_eq_dangling s id r2 hg hs]
      exact Or.inl ⟨rfl, rfl⟩
    | some rec =>
      by_cases hq : s.quorum_size ≤ rec.promises
      · refine Or.inr ⟨r2, rec, rfl, hs, hq, ?_, ?_⟩
        · show (accept s id).1 = true
          rw [accept_eq_some s id r2 rec hg hs, if_pos hq]
        · show (accept s id).2 = _
          rw [accept_eq_some s id r2 rec hg hs, if_pos hq]
      · refine Or.inl ⟨?_, ?_⟩
        · show (accept s id).2 = s
          rw [accept_eq_some s id r2 rec hg hs, if_neg hq]
        · show (accept s id).1 = false
          rw [accept_eq_some s id r2 rec hg hs, if_neg hq]

/-- The initial state is reference-valid. -/
theorem wf_initScheme (dom : String) (q : Nat) : WFState (initScheme dom q) := by
  constructor
  · intro id r h
    simp [dict_get, initScheme] at h
  · intro id r h
    simp [dict_get, initScheme] at h

/-- Every call preserves reference validity. -/
theorem wf_step (s : ConsensusRPCScheme) (op : Op) (h : WFState s) :
    WFState (step s op) := by
  obtain ⟨hp, ha⟩ := h
  cases op with
  | prepare id d =>
    rw [prepare_step_eq]
    constructor
    · intro id2 r hr
      simp only [dict_get] at hr
      rw [List.length_append, List.length_cons, List.length_nil]
      by_cases he : id2 = id
      · rw [if_pos he] at hr
        injection hr with hr
        omega
      · rw [if_neg he] at hr
        exact Nat.lt_succ_of_lt (hp id2 r hr)
    · intro id2 r hr
      rw [List.length_append, List.length_cons, List.length_nil]
      exact Nat.lt_succ_of_lt (ha id2 r hr)
  | promise id n last =>
    rcases promise_step_cases s id n last with he | ⟨r2, rec, _, _, he⟩
    · rw [he]; exact ⟨hp, ha⟩
    · rw [he]
      constructor
      · intro id2 r hr
        rw [List.length_set]
        exact hp id2 r hr
      · intro id2 r hr
        rw [List.length_set]
        exact ha id2 r hr
  | accept id =>
    rcases accept_step_cases s id with ⟨he, _⟩ | ⟨r2, rec, hg, _, _, _, he⟩
    · rw [he]; exact ⟨hp, ha⟩
    · rw [he]
      constructor
      · intro id2 r hr
        rw [List.length_set]
        exact hp id2 r hr
      · intro id2 r hr
        simp only [dict_get] at hr
        rw [List.length_set]
        by_cases hid : id2 = id
        · rw [if_pos hid] at hr
          injection hr with hr
          exact hr ▸ hp id r2 hg
        · rw [if_neg hid] at hr
          exact ha id2 r hr

/-- A whole trace preserves reference validity. -/
theorem wf_run (ops : List Op) :
    ∀ (s : ConsensusRPCScheme), WFState s → WFState (run s ops) := by
  induction ops with
  | nil => intro s h; exact h
  | cons op ops ih =>
    intro s h
    exact ih (step s op) (wf_step s op h)

/-- One call changes the presence of an `accepted` binding exactly by a
successful `accept` for that id. -/
theorem accepted_isSome_step (s : ConsensusRPCScheme) (op : Op) (id : String) :
    (dict_get id (step s op).accepted).isSome =
      (accept_hit s op id || (dict_get id s.accepted).isSome) := by
  cases op with
  | prepare id2 d =>
    rw [prepare_step_eq]
    simp [accept_hit]
  | promise id2 n last =>
    have : (step s (Op.promise id2 n last)).accepted = s.accepted := by
      rcases promise_step_cases s id2 n last with he | ⟨r2, rec, _, _, he⟩ <;> rw [he]
    rw [this]
    simp [accept_hit]
  | accept id2 =>
    rcases accept_step_cases s id2 with ⟨he, hb⟩ | ⟨r2, rec, _, _, _, hb, he⟩
    · rw [he, accept_hit, hb]
      by_cases hid : id2 = id <;> simp [hid]
    · rw [he, accept_hit, hb]
      by_cases hid : id2 = id
      · subst hid
        simp [dict_get]
      · simp [hid, dict_get, Ne.symm hid]

/-- An `accepted` binding, once present, persists through any trace. -/
theorem accepted_isSome_mono (ops : List Op) :
    ∀ (s : ConsensusRPCScheme) (id : String),
      (dict_get id s.accepted).isSome = true →
      (dict_get id (run s ops).accepted).isSome = true := by
  induction ops with
  | nil => intro s id h; exact h
  | cons op ops ih =>
    intro s id h
    have hstep : (dict_get id (step s op).accepted).isSome = true := by
      rw [accepted_isSome_step, h, Bool.or_true]
    exact ih (step s op) id hstep

/-- On reference-valid states, `learn` answers exactly when an
`accepted` binding is present. -/
theorem learn_isSome_wf (s : ConsensusRPCScheme) (h : WFState s) (id : String) :
    (learn s id).isSome = (dict_get id s.accepted).isSome := by
  cases hg : dict_get id s.accepted with
  | none => simp [learn, hg]
  | some r =>
    have hr : r < s.store.length := h.2 id r hg
    simp [learn, hg, List.getElem?_eq_getElem hr]

/-- Relative to any reference-valid start state, `learn` answers after
a trace exactly when an accept succeeded in the trace or the binding
already existed. -/
theorem learn_isSome_run (ops : List Op) :
    ∀ (s : ConsensusRPCScheme), WFState s → ∀ id,
      (learn (run s ops) id).isSome =
        (accept_succeeded s ops id || (dict_get id s.accepted).isSome) := by
  induction ops with
  | nil =>
    intro s h id
    rw [accept_succeeded, Bool.false_or]
    exact learn_isSome_wf s h id
  | cons op ops ih =>
    intro s h id
    have hrun : run s (op :: ops) = run (step s op) ops := rfl
    rw [hrun, ih (step s op) (wf_step s op h) id, accept_succeeded,
      accepted_isSome_step]
    cases accept_hit s op id <;>
      cases accept_succeeded (step s op) ops id <;>
      cases (dict_get id s.accepted).isSome <;> rfl

/-! ## Claim C2 -/

/-- Claim C2, counterexample: `learn` returns the whole accepted record
rather than its data payload.  Two runs that commit the identical
payload `"d"` (differing only in how many promises were gathered)
return different values from `learn`, which could not happen if `learn`
returned the payload; the returned records carry the timestamp and the
promise/accept counts alongside the data field. -/
theorem learn_returns_record_cex :
    learn (run (initScheme "c" 2) trace_two) "r" = some ⟨1, "d", 2, 2⟩ ∧
    learn (run (initScheme "c" 2) trace_three) "r" = some ⟨1, "d", 3, 3⟩ ∧
    learn (run (initScheme "c" 2) trace_two) "r" ≠
      learn (run (initScheme "c" 2) trace_three) "r" := by decide

/-- Claim C2 (amended): starting from a fresh simulator, `learn`
returns the accepted record (some value) exactly for the request ids
for which some `accept` call in the trace succeeded, and an absent
value (`none`) for ids never accepted. -/
theorem learn_isSome_iff_accept_succeeded (dom : String) (q : Nat)
    (ops : List Op) (id : String) :
    (learn (run (initScheme dom q) ops) id).isSome =
      accept_succeeded (initScheme dom q) ops id := by
  rw [learn_isSome_run ops (initScheme dom q) (wf_initScheme dom q) id]
  simp [dict_get, initScheme]

/-! ## Claim C3 -/

/-- Claim C3, counterexample: after `accept` succeeds on `trace_two`,
the accepted entry still aliases the live proposal record: a further
`promise` call raises its promise count from 2 to 3, and a further
`accept` call raises its accept count to 3, both visible through
`learn`.  The accepted record is not an immutable copied snapshot. -/
theorem accepted_record_mutation_cex :
    learn (run (initScheme "c" 2) trace_two) "r" = some ⟨1, "d", 2, 2⟩ ∧
    learn (step (run (initScheme "c" 2) trace_two) (Op.promise "r" "n3" 0)) "r" =
      some ⟨1, "d", 3, 2⟩ ∧
    learn (step (step (run (initScheme "c" 2) trace_two) (Op.promise "r" "n3" 0))
        (Op.accept "r")) "r" = some ⟨1, "d", 3, 3⟩ ∧
    learn (run (initScheme "c" 2) trace_two) "r" ≠
      learn (step (run (initScheme "c" 2) trace_two) (Op.promise "r" "n3" 0)) "r" := by
  decide

/-- Claim C3 (amended): the accepted entry aliases the proposal record
instead of holding an immutable copy.  What does hold: no call ever
changes the timestamp or the data field of any stored record, and a
`prepare` call changes no field of any existing record (it allocates a
fresh one); only `promise`/`accept` calls may change the promise and
accept counts of the record an accepted entry points to. -/
theorem record_fields_frame (s : ConsensusRPCScheme) (op : Op) (r : Nat)
    (rec : ProposalRecord) (h : s.store[r]? = some rec) :
    ∃ rec2,
      (step s op).store[r]? = some rec2 ∧
      rec2.timestamp = rec.timestamp ∧
      rec2.data = rec.data ∧
      (∀ id d, op = Op.prepare id d → rec2 = rec) := by
  have hr : r < s.store.length := by
    rcases List.getElem?_eq_some.mp h with ⟨hlt, _⟩
    exact hlt
  cases op with
  | prepare id d =>
    refine ⟨rec, ?_, rfl, rfl, fun _ _ _ => rfl⟩
    rw [prepare_step_eq]
    show (s.store ++ [⟨s.current_timestamp + 1, d, 0, 0⟩])[r]? = some rec
    rw [List.getElem?_append_left hr]
    exact h
  | promise id n last =>
    rcases promise_step_cases s id n last with he | ⟨r2, rec3, _, hs, he⟩
    · exact ⟨rec, by rw [he]; exact h, rfl, rfl, fun id d hop => by cases hop⟩
    · by_cases hrr : r2 = r
      · subst hrr
        have : rec3 = rec := by
          rw [h] at hs
          injection hs with hv
          exact hv.symm
        subst this
        refine ⟨{ rec3 with promises := rec3.promises + 1 }, ?_, rfl, rfl,
          fun id d hop => by cases hop⟩
        rw [he]
        show (s.store.set r2 _)[r2]? = _
        rw [List.getElem?_set_self hr]
      · refine ⟨rec, ?_, rfl, rfl, fun id d hop => by cases hop⟩
        rw [he]
        show (s.store.set r2 _)[r]? = _
        rw [List.getElem?_set_ne hrr]
        exact h
  | accept id =>
    rcases accept_step_cases s id with ⟨he, _⟩ | ⟨r2, rec3, _, hs, _, _, he⟩
    · exact ⟨rec, by rw [he]; exact h, rfl, rfl, fun id d hop => by cases hop⟩
    · by_cases hrr : r2 = r
      · subst hrr
        have : rec3 = rec := by
          rw [h] at hs
          injection hs with hv
          exact hv.symm
        subst this
        refine ⟨{ rec3 with accepts := rec3.promises }, ?_, rfl, rfl,
          fun id d hop => by cases hop⟩
        rw [he]
        show (s.store.set r2 _)[r2]? = _
        rw [List.getElem?_set_self hr]
      · refine ⟨rec, ?_, rfl, rfl, fun id d hop => by cases hop⟩
        rw [he]
        show (s.store.set r2 _)[r]? = _
        rw [List.getElem?_set_ne hrr]
        exact h

/-- Claim C3 amended, witness: the record allocated by a `prepare`,
examined across a subsequent `promise` call. -/
theorem record_fields_frame_witness :
    ∃ rec2,
      (step (prepare (initScheme "c" 2) "r" "d").2 (Op.promise "r" "n" 0)).store[0]? =
        some rec2 ∧
      rec2.timestamp = (⟨1, "d", 0, 0⟩ : ProposalRecord).timestamp ∧
      rec2.data = (⟨1, "d", 0, 0⟩ : ProposalRecord).data ∧
      (∀ id d, Op.promise "r" "n" 0 = Op.prepare id d →
        rec2 = (⟨1, "d", 0, 0⟩ : ProposalRecord)) :=
  record_fields_frame (prepare (initScheme "c" 2) "r" "d").2 (Op.promise "r" "n" 0) 0
    ⟨1, "d", 0, 0⟩ (by decide)

/-! ## Claim C4 -/

/-- Claim C4: the behavior the claim describes for `promise`, proved of
the model that reads the malformed source line 110 as the comment it
was meant to be.  Unknown ids fail and leave the state unchanged; a
fresh timestamp (strictly greater than `last_timestamp`) grants and
increments; a stale one fails and leaves the count unchanged; two
grants for the same `node_id` both count (no deduplication). -/
theorem promise_claimed_behavior :
    promise (initScheme "c" 2) "r" "n" 0 = (false, initScheme "c" 2) ∧
    (promise (prepare (initScheme "c" 2) "r" "d").2 "r" "n1" 0).1 = true ∧
    ((promise (prepare (initScheme "c" 2) "r" "d").2 "r" "n1" 0).2.store)[0]? =
      some ⟨1, "d", 1, 0⟩ ∧
    promise (prepare (initScheme "c" 2) "r" "d").2 "r" "n1" 1 =
      (false, (prepare (initScheme "c" 2) "r" "d").2) ∧
    (promise (promise (prepare (initScheme "c" 2) "r" "d").2 "r" "n1" 0).2 "r" "n1" 0).1 =
      true ∧
    ((promise (promise (prepare (initScheme "c" 2) "r" "d").2 "r" "n1" 0).2 "r" "n1" 0).2.store)[0]? =
      some ⟨1, "d", 2, 0⟩ := by decide

/-! ## Claim C5 -/

/-- Claim C5: `accept` fails (returning false, leaving the state — in
particular the accepted set — unchanged) on unknown ids and on
proposals below quorum; at or above quorum it succeeds, sets the accept
count to the promise count, and records the accepted entry.  On a fresh
quorum-2 proposal, two successful promises make `accept` succeed and a
single one leaves it failing. -/
theorem accept_quorum_behavior :
    (∀ (s : ConsensusRPCScheme) (id : String),
      (dict_get id s.proposals = none → accept s id = (false, s)) ∧
      (∀ r rec, dict_get id s.proposals = some r → s.store[r]? = some rec →
        (rec.promises < s.quorum_size → accept s id = (false, s)) ∧
        (s.quorum_size ≤ rec.promises →
          accept s id = (true,
            { s with
              store := s.store.set r { rec with accepts := rec.promises }
              accepted := (id, r) :: s.accepted })))) ∧
    (accept (run (initScheme "c" 2) (trace_two.take 3)) "r").1 = true ∧
    accept (run (initScheme "c" 2) (trace_two.take 2)) "r" =
      (false, run (initScheme "c" 2) (trace_two.take 2)) := by
  refine ⟨?_, by decide, by decide⟩
  intro s id
  constructor
  · intro h
    exact accept_eq_none s id h
  · intro r rec h1 h2
    constructor
    · intro hlt
      rw [accept_eq_some s id r rec h1 h2, if_neg (Nat.not_le.mpr hlt)]
    · intro hge
      rw [accept_eq_some s id r rec h1 h2, if_pos hge]

/-- Claim C5, witness: the general part applied to a concrete unknown
request id. -/
theorem accept_quorum_behavior_witness :
    accept (initScheme "c" 2) "zzz" = (false, initScheme "c" 2) :=
  (accept_quorum_behavior.1 (initScheme "c" 2) "zzz").1 rfl

/-! ## Claim C6 -/

/-- Claim C6: `check_invariants` returns true iff the dominance flag is
set, reliability is at least 94.7 and quorum availability is at least
2/3; in particular it is false whenever reliability is below 94.7, and
true at the exact boundary (reliability 94.7, availability 2/3,
dominance flag true). -/
theorem check_invariants_characterization (m : ContentionModel) (b : Bool)
    (qa : ℚ) :
    ((check_invariants m b qa).1 = true ↔
      (b = true ∧ (947 / 10 : ℚ) ≤ m.component.reliability_percent ∧ (2 / 3 : ℚ) ≤ qa)) ∧
    (m.component.reliability_percent < 947 / 10 → (check_invariants m b qa).1 = false) ∧
    (b = true → m.component.reliability_percent = 947 / 10 →
      (check_invariants m b (2 / 3)).1 = true) := by
  refine ⟨?_, ?_, ?_⟩
  · simp [check_invariants, and_assoc]
  · intro hlt
    simp [check_invariants, not_le.mpr hlt]
  · intro hb he
    simp [check_invariants, hb, he]

/-- Claim C6, witness at the boundary component (`reliability = 94.7`)
with the dominance flag true and quorum availability exactly 2/3. -/
theorem check_invariants_characterization_witness :
    (check_invariants (mkContentionModel comp_boundary 2) true (2 / 3)).1 = true :=
  (check_invariants_characterization (mkContentionModel comp_boundary 2) true
    (2 / 3)).2.2 rfl rfl

/-! ## Claim C7 -/

/-- Claim C7: `optimal_contention` returns 0 whenever `beta ≤ 1`, for
every `alpha`, and the closed form
`(beta / (alpha * (beta - 1))) ** (1 / beta)` whenever `beta > 1`. -/
theorem optimal_contention_closed_form (o : LatencyElasticityOptimizer) :
    (o.beta ≤ 1 → optimal_contention o = 0) ∧
    (1 < o.beta →
      optimal_contention o =
        ((o.beta : ℝ) / ((o.alpha : ℝ) * ((o.beta : ℝ) - 1))) ^ ((1 : ℝ) / (o.beta : ℝ))) := by
  constructor
  · intro h
    rw [optimal_contention, if_pos h]
  · intro h
    rw [optimal_contention, if_neg (not_le.mpr h)]

/-- Claim C7, witness: at `beta = 1` (any alpha) the result is 0, and
at `alpha = 1`, `beta = 2` the closed form is returned. -/
theorem optimal_contention_closed_form_witness :
    optimal_contention ⟨10, 1 / 5, 1⟩ = 0 ∧
    optimal_contention ⟨10, 1, 2⟩ =
      (((2 : ℚ) : ℝ) / (((1 : ℚ) : ℝ) * (((2 : ℚ) : ℝ) - 1))) ^ ((1 : ℝ) / ((2 : ℚ) : ℝ)) :=
  ⟨(optimal_contention_closed_form ⟨10, 1 / 5, 1⟩).1 (le_refl 1),
   (optimal_contention_closed_form ⟨10, 1, 2⟩).2 (by norm_num)⟩

/-! ## Grid and memory-curve lemmas for the throughput optimizer -/

/-- Every grid sample is at least 0.1. -/
theorem contention_grid_bounds : ∀ c ∈ contention_grid, (1 / 10 : ℚ) ≤ c := by
  intro c hc
  rw [contention_grid] at hc
  obtain ⟨i, _, rfl⟩ := List.mem_map.mp hc
  have h1 : (1 : ℚ) ≤ (i : ℚ) + 1 := by
    have : (0 : ℚ) ≤ (i : ℚ) := Nat.cast_nonneg i
    linarith
  exact (div_le_div_iff_of_pos_right (by norm_num : (0 : ℚ) < 10)).mpr h1

/-- The grid starts at 0.1, followed by the samples 0.2 … 9.9. -/
theorem contention_grid_eq :
    contention_grid =
      (1 / 10 : ℚ) :: (List.range 98).map (fun (i : ℕ) => ((i : ℚ) + 2) / 10) := by
  rw [contention_grid, show (99 : ℕ) = 98 + 1 from rfl, List.range_succ_eq_map,
    List.map_cons, List.map_map]
  congr 1
  · norm_num
  · congr 1
    funext i
    simp only [Function.comp]
    push_cast
    ring

/-- Every grid sample after the first is strictly greater than 0.1. -/
theorem contention_grid_rest_bounds :
    ∀ c ∈ (List.range 98).map (fun (i : ℕ) => ((i : ℚ) + 2) / 10), (1 / 10 : ℚ) < c := by
  intro c hc
  obtain ⟨i, _, rfl⟩ := List.mem_map.mp hc
  have h1 : (1 : ℚ) < (i : ℚ) + 2 := by
    have : (0 : ℚ) ≤ (i : ℚ) := Nat.cast_nonneg i
    linarith
  exact (div_lt_div_iff_of_pos_right (by norm_num : (0 : ℚ) < 10)).mpr h1

/-- The effective latency is nonnegative whenever the base latency and
the contention are. -/
theorem effective_latency_nonneg (t : ThroughputOptimizer) (c : ℚ)
    (hL : 0 ≤ t.component.latency_ms) (hc : 0 ≤ c) :
    0 ≤ effective_latency (elasticity_optimizer t) c := by
  unfold effective_latency elasticity_optimizer
  have h1 : (0 : ℝ) ≤ (c : ℝ) ^ (((3 : ℚ) / 2 : ℚ) : ℝ) :=
    Real.rpow_nonneg (by exact_mod_cast hc) _
  have h2 : ((1 / 5 : ℚ) : ℝ) = 1 / 5 := by norm_num
  apply mul_nonneg (by exact_mod_cast hL)
  rw [h2]
  nlinarith [h1]

/-- The effective latency is strictly positive for a positive base
latency and nonnegative contention. -/
theorem effective_latency_pos (t : ThroughputOptimizer) (c : ℚ)
    (hL : 0 < t.component.latency_ms) (hc : 0 ≤ c) :
    0 < effective_latency (elasticity_optimizer t) c := by
  unfold effective_latency elasticity_optimizer
  have h1 : (0 : ℝ) ≤ (c : ℝ) ^ (((3 : ℚ) / 2 : ℚ) : ℝ) :=
    Real.rpow_nonneg (by exact_mod_cast hc) _
  have h2 : ((1 / 5 : ℚ) : ℝ) = 1 / 5 := by norm_num
  apply mul_pos (by exact_mod_cast hL)
  rw [h2]
  nlinarith [h1]

/-- The effective latency is monotone in the contention (for
nonnegative base latency and contentions). -/
theorem effective_latency_mono (t : ThroughputOptimizer) (a b : ℚ)
    (hL : 0 ≤ t.component.latency_ms) (ha : 0 ≤ a) (hab : a ≤ b) :
    effective_latency (elasticity_optimizer t) a ≤
      effective_latency (elasticity_optimizer t) b := by
  unfold effective_latency elasticity_optimizer
  apply mul_le_mul_of_nonneg_left _ (by exact_mod_cast hL)
  have h1 : (a : ℝ) ^ (((3 : ℚ) / 2 : ℚ) : ℝ) ≤ (b : ℝ) ^ (((3 : ℚ) / 2 : ℚ) : ℝ) :=
    Real.rpow_le_rpow (by exact_mod_cast ha) (by exact_mod_cast hab) (by norm_num)
  have h2 : ((1 / 5 : ℚ) : ℝ) = 1 / 5 := by norm_num
  rw [h2]
  nlinarith [h1]

/-- Memory under worst-case scheduling never falls below the base
memory (for nonnegative latency, request size and contention). -/
theorem memory_divergence_ge_base (t : ThroughputOptimizer) (c : ℚ)
    (hL : 0 ≤ t.component.latency_ms) (hrs : 0 ≤ t.request_size_gb) (hc : 0 ≤ c) :
    (t.component.memory_gb : ℝ) ≤ memory_divergence t c := by
  unfold memory_divergence
  have h1 : (0 : ℝ) ≤ effective_latency (elasticity_optimizer t) c :=
    effective_latency_nonneg t c hL hc
  have h2 : (0 : ℝ) ≤ (t.request_size_gb : ℝ) * (c : ℝ) *
      effective_latency (elasticity_optimizer t) c / 1000 := by
    apply div_nonneg _ (by norm_num)
    exact mul_nonneg (mul_nonneg (by exact_mod_cast hrs) (by exact_mod_cast hc)) h1
  linarith

/-- Memory under worst-case scheduling is monotone in the contention. -/
theorem memory_divergence_mono (t : ThroughputOptimizer) (a b : ℚ)
    (hL : 0 ≤ t.component.latency_ms) (hrs : 0 ≤ t.request_size_gb)
    (ha : 0 ≤ a) (hab : a ≤ b) :
    memory_divergence t a ≤ memory_divergence t b := by
  unfold memory_divergence
  have hla : (0 : ℝ) ≤ effective_latency (elasticity_optimizer t) a :=
    effective_latency_nonneg t a hL ha
  have hlab : effective_latency (elasticity_optimizer t) a ≤
      effective_latency (elasticity_optimizer t) b :=
    effective_latency_mono t a b hL ha hab
  have h1 : (t.request_size_gb : ℝ) * (a : ℝ) ≤ (t.request_size_gb : ℝ) * (b : ℝ) := by
    apply mul_le_mul_of_nonneg_left _ (by exact_mod_cast hrs)
    exact_mod_cast hab
  have h2 : (0 : ℝ) ≤ (t.request_size_gb : ℝ) * (a : ℝ) :=
    mul_nonneg (by exact_mod_cast hrs) (by exact_mod_cast ha)
  have h3 : (t.request_size_gb : ℝ) * (a : ℝ) * effective_latency (elasticity_optimizer t) a ≤
      (t.request_size_gb : ℝ) * (b : ℝ) * effective_latency (elasticity_optimizer t) b :=
    mul_le_mul h1 hlab hla (le_trans h2 h1)
  have h4 : (t.request_size_gb : ℝ) * (a : ℝ) * effective_latency (elasticity_optimizer t) a / 1000 ≤
      (t.request_size_gb : ℝ) * (b : ℝ) * effective_latency (elasticity_optimizer t) b / 1000 :=
    (div_le_div_iff_of_pos_right (by norm_num : (0 : ℝ) < 1000)).mpr h3
  linarith

/-- Memory under worst-case scheduling is strictly monotone in the
contention when the base latency and the request size are positive. -/
theorem memory_divergence_strict_mono (t : ThroughputOptimizer) (a b : ℚ)
    (hL : 0 < t.component.latency_ms) (hrs : 0 < t.request_size_gb)
    (ha : 0 < a) (hab : a < b) :
    memory_divergence t a < memory_divergence t b := by
  unfold memory_divergence
  have hla : (0 : ℝ) < effective_latency (elasticity_optimizer t) a :=
    effective_latency_pos t a hL ha.le
  have hlab : effective_latency (elasticity_optimizer t) a ≤
      effective_latency (elasticity_optimizer t) b :=
    effective_latency_mono t a b hL.le ha.le hab.le
  have hb : (0 : ℝ) < (b : ℝ) := by exact_mod_cast lt_trans ha hab
  have h1 : (a : ℝ) * effective_latency (elasticity_optimizer t) a <
      (b : ℝ) * effective_latency (elasticity_optimizer t) b := by
    calc (a : ℝ) * effective_latency (elasticity_optimizer t) a
        < (b : ℝ) * effective_latency (elasticity_optimizer t) a := by
          apply mul_lt_mul_of_pos_right _ hla
          exact_mod_cast hab
    _ ≤ (b : ℝ) * effective_latency (elasticity_optimizer t) b :=
          mul_le_mul_of_nonneg_left hlab hb.le
  have hrs2 : (0 : ℝ) < (t.request_size_gb : ℝ) := by exact_mod_cast hrs
  have h2 : (t.request_size_gb : ℝ) * (a : ℝ) * effective_latency (elasticity_optimizer t) a <
      (t.request_size_gb : ℝ) * (b : ℝ) * effective_latency (elasticity_optimizer t) b := by
    rw [mul_assoc, mul_assoc]
    exact mul_lt_mul_of_pos_left h1 hrs2
  have h3 : (t.request_size_gb : ℝ) * (a : ℝ) * effective_latency (elasticity_optimizer t) a / 1000 <
      (t.request_size_gb : ℝ) * (b : ℝ) * effective_latency (elasticity_optimizer t) b / 1000 :=
    (div_lt_div_iff_of_pos_right (by norm_num : (0 : ℝ) < 1000)).mpr h2
  linarith

/-- The search loop never moves off its incumbent when no sample can
strictly beat the incumbent throughput (in particular when no sample is
feasible at all). -/
theorem opt_foldl_const (t : ThroughputOptimizer) :
    ∀ (l : List ℚ) (b : ℚ × ℝ),
      (∀ c ∈ l, memory_divergence t c ≤ ((max_memory_allowed t : ℚ) : ℝ) →
        (t.component.throughput_mbps : ℝ) *
          (((max_memory_allowed t : ℚ) : ℝ) / memory_divergence t c) ≤ b.2) →
      l.foldl (optStep t) b = b := by
  intro l
  induction l with
  | nil => intro b _; rfl
  | cons c rest ih =>
    intro b h
    have hbc : optStep t b c = b := by
      simp only [optStep]
      by_cases hmem : memory_divergence t c ≤ ((max_memory_allowed t : ℚ) : ℝ)
      · rw [if_pos hmem, if_neg (not_lt.mpr (h c (List.mem_cons_self c rest) hmem))]
      · rw [if_neg hmem]
    rw [List.foldl_cons, hbc]
    exact ih b (fun c2 hc2 => h c2 (List.mem_cons_of_mem c hc2))

/-! ## Claim C8 -/

/-- Claim C8: when the divergence limit drives the memory ceiling
strictly below the base memory, no grid sample can satisfy the ceiling
(memory at any positive contention is at least the base memory), so the
search returns contention 0 and throughput 0 — an ordinary zero-valued
result of the total model, not an error. -/
theorem optimize_throughput_degenerate (comp : Component) (rs dl : ℚ)
    (hL : 0 ≤ comp.latency_ms) (hrs : 0 ≤ rs)
    (hmax : max_memory_allowed ⟨comp, rs, dl⟩ < comp.memory_gb) :
    (optimize_throughput ⟨comp, rs, dl⟩).optimal_contention = 0 ∧
    (optimize_throughput ⟨comp, rs, dl⟩).optimized_throughput = 0 ∧
    (∀ c ∈ contention_grid,
      ¬ (memory_divergence ⟨comp, rs, dl⟩ c ≤
          ((max_memory_allowed ⟨comp, rs, dl⟩ : ℚ) : ℝ))) := by
  have hinf : ∀ c ∈ contention_grid,
      ¬ (memory_divergence ⟨comp, rs, dl⟩ c ≤
          ((max_memory_allowed ⟨comp, rs, dl⟩ : ℚ) : ℝ)) := by
    intro c hc hle
    have hc0 : (0 : ℚ) ≤ c := le_trans (by norm_num) (contention_grid_bounds c hc)
    have hmem : ((⟨comp, rs, dl⟩ : ThroughputOptimizer).component.memory_gb : ℝ) ≤
        memory_divergence ⟨comp, rs, dl⟩ c :=
      memory_divergence_ge_base ⟨comp, rs, dl⟩ c hL hrs hc0
    have hcast : ((max_memory_allowed ⟨comp, rs, dl⟩ : ℚ) : ℝ) < (comp.memory_gb : ℝ) := by
      exact_mod_cast hmax
    exact absurd (le_trans hmem hle) (not_le.mpr hcast)
  have hfold : contention_grid.foldl (optStep ⟨comp, rs, dl⟩) (0, 0) = (0, 0) :=
    opt_foldl_const ⟨comp, rs, dl⟩ contention_grid (0, 0)
      (fun c hc hmem => absurd hmem (hinf c hc))
  refine ⟨?_, ?_, hinf⟩
  · show (contention_grid.foldl (optStep ⟨comp, rs, dl⟩) (0, 0)).1 = 0
    rw [hfold]
  · show (contention_grid.foldl (optStep ⟨comp, rs, dl⟩) (0, 0)).2 = 0
    rw [hfold]

/-- Claim C8, witness: the positive-metric component with the
divergence limit set to −1/2, so the ceiling (1.2 GB) is below the base
memory (2.4 GB). -/
theorem optimize_throughput_degenerate_witness :
    (optimize_throughput ⟨comp_auth, 1 / 20, -(1 / 2)⟩).optimal_contention = 0 ∧
    (optimize_throughput ⟨comp_auth, 1 / 20, -(1 / 2)⟩).optimized_throughput = 0 ∧
    (∀ c ∈ contention_grid,
      ¬ (memory_divergence ⟨comp_auth, 1 / 20, -(1 / 2)⟩ c ≤
          ((max_memory_allowed ⟨comp_auth, 1 / 20, -(1 / 2)⟩ : ℚ) : ℝ))) :=
  optimize_throughput_degenerate comp_auth (1 / 20) (-(1 / 2))
    (by norm_num [comp_auth]) (by norm_num)
    (by norm_num [max_memory_allowed, comp_auth])

/-! ## Claim C10 -/

/-- Claim C10: with the default parameters (`request_size_gb = 0.05`,
`divergence_limit = 0.15`, and the built-in `alpha = 0.2`,
`beta = 1.5`) and a component with positive latency, memory and
throughput, the search returns the smallest grid sample 0.1 whenever
that sample meets the memory ceiling, and contention 0 / throughput 0
otherwise: memory grows strictly with contention while the candidate
throughput shrinks as memory grows, so no later sample can beat the
first feasible one. -/
theorem optimize_throughput_first_feasible (comp : Component)
    (hL : 0 < comp.latency_ms) (hm : 0 < comp.memory_gb)
    (hT : 0 < comp.throughput_mbps) :
    (memory_divergence ⟨comp, 1 / 20, 3 / 20⟩ (1 / 10) ≤
        ((max_memory_allowed ⟨comp, 1 / 20, 3 / 20⟩ : ℚ) : ℝ) →
      (optimize_throughput ⟨comp, 1 / 20, 3 / 20⟩).optimal_contention = 1 / 10) ∧
    (¬ (memory_divergence ⟨comp, 1 / 20, 3 / 20⟩ (1 / 10) ≤
        ((max_memory_allowed ⟨comp, 1 / 20, 3 / 20⟩ : ℚ) : ℝ)) →
      (optimize_throughput ⟨comp, 1 / 20, 3 / 20⟩).optimal_contention = 0 ∧
      (optimize_throughput ⟨comp, 1 / 20, 3 / 20⟩).optimized_throughput = 0) := by
  set t : ThroughputOptimizer := ⟨comp, 1 / 20, 3 / 20⟩ with ht
  have htL : 0 < t.component.latency_ms := hL
  have htm : 0 < t.component.memory_gb := hm
  have htT : 0 < t.component.throughput_mbps := hT
  have hrs : (0 : ℚ) < t.request_size_gb := by rw [ht]; norm_num
  have hmaxpos : (0 : ℚ) < max_memory_allowed t := by
    rw [ht]
    unfold max_memory_allowed
    exact mul_pos hm (by norm_num)
  have hMpos : (0 : ℝ) < ((max_memory_allowed t : ℚ) : ℝ) := by exact_mod_cast hmaxpos
  have hTpos : (0 : ℝ) < (t.component.throughput_mbps : ℝ) := by exact_mod_cast htT
  have hmem01pos : (0 : ℝ) < memory_divergence t (1 / 10) := by
    have h1 : (t.component.memory_gb : ℝ) ≤ memory_divergence t (1 / 10) :=
      memory_divergence_ge_base t (1 / 10) htL.le hrs.le (by norm_num)
    have h2 : (0 : ℝ) < (t.component.memory_gb : ℝ) := by exact_mod_cast htm
    linarith
  constructor
  · -- the smallest sample is feasible and wins
    intro hfeas
    have hth01pos : ((0, 0) : ℚ × ℝ).2 <
        (t.component.throughput_mbps : ℝ) *
          (((max_memory_allowed t : ℚ) : ℝ) / memory_divergence t (1 / 10)) := by
      show (0 : ℝ) < _
      exact mul_pos hTpos (div_pos hMpos hmem01pos)
    have hstep1 : optStep t (0, 0) (1 / 10 : ℚ) =
        ((1 / 10 : ℚ), (t.component.throughput_mbps : ℝ) *
          (((max_memory_allowed t : ℚ) : ℝ) / memory_divergence t (1 / 10))) := by
      simp only [optStep]
      rw [if_pos hfeas, if_pos hth01pos]
    have hrest : ∀ c ∈ (List.range 98).map (fun (i : ℕ) => ((i : ℚ) + 2) / 10),
        memory_divergence t c ≤ ((max_memory_allowed t : ℚ) : ℝ) →
        (t.component.throughput_mbps : ℝ) *
            (((max_memory_allowed t : ℚ) : ℝ) / memory_divergence t c) ≤
          (((1 / 10 : ℚ), (t.component.throughput_mbps : ℝ) *
            (((max_memory_allowed t : ℚ) : ℝ) / memory_divergence t (1 / 10))) : ℚ × ℝ).2 := by
      intro c hc _
      have hlt : (1 / 10 : ℚ) < c := contention_grid_rest_bounds c hc
      have hmlt : memory_divergence t (1 / 10) < memory_divergence t c :=
        memory_divergence_strict_mono t (1 / 10) c htL hrs (by norm_num) hlt
      have hdiv : ((max_memory_allowed t : ℚ) : ℝ) / memory_divergence t c <
          ((max_memory_allowed t : ℚ) : ℝ) / memory_divergence t (1 / 10) :=
        div_lt_div_of_pos_left hMpos hmem01pos hmlt
      show (t.component.throughput_mbps : ℝ) * _ ≤ (t.component.throughput_mbps : ℝ) * _
      exact (mul_lt_mul_of_pos_left hdiv hTpos).le
    have hfold : contention_grid.foldl (optStep t) (0, 0) =
        ((1 / 10 : ℚ), (t.component.throughput_mbps : ℝ) *
          (((max_memory_allowed t : ℚ) : ℝ) / memory_divergence t (1 / 10))) := by
      rw [contention_grid_eq, List.foldl_cons, hstep1]
      exact opt_foldl_const t _ _ hrest
    show (contention_grid.foldl (optStep t) (0, 0)).1 = 1 / 10
    rw [hfold]
  · -- the smallest sample is infeasible, hence everything is
    intro hnot
    have hinf : ∀ c ∈ contention_grid,
        ¬ (memory_divergence t c ≤ ((max_memory_allowed t : ℚ) : ℝ)) := by
      intro c hc hle
      have h1 : (1 / 10 : ℚ) ≤ c := contention_grid_bounds c hc
      have hmono : memory_divergence t (1 / 10) ≤ memory_divergence t c :=
        memory_divergence_mono t (1 / 10) c htL.le hrs.le (by norm_num) h1
      exact hnot (le_trans hmono hle)
    have hfold : contention_grid.foldl (optStep t) (0, 0) = (0, 0) :=
      opt_foldl_const t contention_grid (0, 0)
        (fun c hc hmem => absurd hmem (hinf c hc))
    constructor
    · show (contention_grid.foldl (optStep t) (0, 0)).1 = 0
      rw [hfold]
    · show (contention_grid.foldl (optStep t) (0, 0)).2 = 0
      rw [hfold]

/-- Claim C10, witness: the positive-metric component with the default
request size and divergence limit. -/
theorem optimize_throughput_first_feasible_witness :
    (memory_divergence ⟨comp_auth, 1 / 20, 3 / 20⟩ (1 / 10) ≤
        ((max_memory_allowed ⟨comp_auth, 1 / 20, 3 / 20⟩ : ℚ) : ℝ) →
      (optimize_throughput ⟨comp_auth, 1 / 20, 3 / 20⟩).optimal_contention = 1 / 10) ∧
    (¬ (memory_divergence ⟨comp_auth, 1 / 20, 3 / 20⟩ (1 / 10) ≤
        ((max_memory_allowed ⟨comp_auth, 1 / 20, 3 / 20⟩ : ℚ) : ℝ)) →
      (optimize_throughput ⟨comp_auth, 1 / 20, 3 / 20⟩).optimal_contention = 0 ∧
      (optimize_throughput ⟨comp_auth, 1 / 20, 3 / 20⟩).optimized_throughput = 0) :=
  optimize_throughput_first_feasible comp_auth (by norm_num [comp_auth])
    (by norm_num [comp_auth]) (by norm_num [comp_auth])
